import Mathlib

/-!
Verification of `create_license.py`: a script that invokes
`cargo bundle-licenses --format json`, parses its JSON output into a list of
dependency records, and writes a `THIRD_PARTY_LIBRARY_LICENSES` file containing
one allow-listed license per dependency, failing fast on the first dependency
with no licenses or no allow-listed license.

The embedding below mirrors the source line by line: `selectLicense` is the
`for p in permissible_licenses` loop (lines 20-28), `processDeps` is the main
`for lib in bundle_licenses['third_party_libraries']` loop (lines 13-35), and
`runProgram` is the whole script including the subprocess invocation and JSON
parse (lines 8-10), modelling Python exception semantics: `check=True` raises
`CalledProcessError` on non-zero exit and `json.loads` raises on malformed
input, both before `open(...)` runs, and an unhandled exception terminates the
process with exit status 1.
-/

/-- One element of a `licenses` array: `{ "license": ..., "text": ... }`. -/
structure LicenseEntry where
  license : String
  text : String
deriving Repr, DecidableEq

/-- One element of `third_party_libraries`:
`{ "package_name": ..., "licenses": [...] }`. -/
structure Dep where
  package_name : String
  licenses : List LicenseEntry
deriving Repr, DecidableEq

/-- Source line 6: `permissible_licenses = ['MIT']` (an ordered list). -/
def permissible_licenses : List String := ["MIT"]

/-- Source lines 20-28: starting from `package_license = ''; license_text = ''`,
scan the allow-list `P` in order; for each `p` filter the dependency's licenses
to the entries with `x['license'] == p`; on the first non-empty filter result
take `l[0]['license']` and `l[0]['text']` and break.  Returns the final pair
`(package_license, license_text)`, which is `("", "")` when no allow-list entry
matched. -/
def selectLicense (P : List String) (licenses : List LicenseEntry) : String × String :=
  match P with
  | [] => ("", "")
  | p :: ps =>
    match licenses.filter (fun x => x.license == p) with
    | [] => selectLicense ps licenses
    | e :: _ => (e.license, e.text)

/-- Source line 12: the header written first:
`f.write('# Thiard party library licenses\n\n')` (sic). -/
def header : String := "# Thiard party library licenses\n\n"

/-- Source lines 33-35: the three writes for one accepted dependency:
`'## {package_name}\n\n'`, `'{package_license}\n\n'`, `'{license_text}\n\n\n'`. -/
def renderBlock (name lic text : String) : String :=
  "## " ++ name ++ "\n\n" ++ lic ++ "\n\n" ++ text ++ "\n\n\n"

/-- The block the main loop writes for dependency `d` under allow-list `P`. -/
def renderDep (P : List String) (d : Dep) : String :=
  renderBlock d.package_name (selectLicense P d.licenses).1 (selectLicense P d.licenses).2

/-- Outcome of the main loop: either every record was accepted and the file
holds `content`, or the loop hit `sys.exit(1)` with `content` already written
and one diagnostic line `errLine` printed to stderr. -/
inductive ProcResult where
  | success (content : String)
  | failure (content : String) (errLine : String)
deriving Repr, DecidableEq

/-- Source lines 13-35: the main loop over `third_party_libraries`.  For each
record in order: if `len(licenses) == 0`, print `Error: ... has no licenses`
and exit 1; otherwise run the allow-list scan; if `package_license == ''`,
print `Error: ... has no permissible licenses` and exit 1; otherwise append
the record's block to the file and continue.  `content` is what has been
written to the file so far. -/
def processDeps (P : List String) (deps : List Dep) (content : String) : ProcResult :=
  match deps with
  | [] => .success content
  | d :: ds =>
    if d.licenses.length == 0 then
      .failure content ("Error: " ++ d.package_name ++ " has no licenses")
    else
      if (selectLicense P d.licenses).1 == "" then
        .failure content ("Error: " ++ d.package_name ++ " has no permissible licenses")
      else
        processDeps P ds (content ++ renderDep P d)

/-- What the script receives from lines 8-10: the `cargo bundle-licenses`
subprocess either exits non-zero (`check=True` raises `CalledProcessError`),
or exits 0 with stdout that `json.loads` rejects, or exits 0 with stdout that
parses to a `third_party_libraries` list of dependency records. -/
inductive ExternalOutcome where
  | toolFailed
  | badJson
  | parsed (deps : List Dep)
deriving Repr, DecidableEq

/-- Observable final state of one run of the script: whether
`THIRD_PARTY_LIBRARY_LICENSES` was opened (creating/truncating it), its final
content, the diagnostic lines printed to stderr, and the process exit code. -/
structure RunState where
  fileCreated : Bool
  fileContent : String
  stderrLines : List String
  exitCode : Nat
deriving Repr, DecidableEq

/-- The whole script.  A subprocess failure or JSON parse failure raises before
`open('THIRD_PARTY_LIBRARY_LICENSES', mode='w')` is reached, so the file is
never created and the interpreter exits with status 1; otherwise the file is
opened (truncating any existing one), the header is written, and the main loop
runs. -/
def runProgram (ext : ExternalOutcome) : RunState :=
  match ext with
  | .toolFailed => ⟨false, "", [], 1⟩
  | .badJson => ⟨false, "", [], 1⟩
  | .parsed deps =>
    match processDeps permissible_licenses deps header with
    | .success c => ⟨true, c, [], 0⟩
    | .failure c e => ⟨true, c, [e], 1⟩

/-- A record the main loop accepts: a non-empty license list on which the
allow-list scan produces a non-empty `package_license`. -/
def validDep (P : List String) (d : Dep) : Prop :=
  d.licenses ≠ [] ∧ (selectLicense P d.licenses).1 ≠ ""

instance (P : List String) (d : Dep) : Decidable (validDep P d) :=
  inferInstanceAs (Decidable (_ ∧ _))

/-- Right fold concatenation of the blocks written by the loop. -/
def concatList : List String → String
  | [] => ""
  | s :: ss => s ++ concatList ss

lemma selectLicense_cons_of_filter_nil (p : String) (ps : List String)
    (ls : List LicenseEntry) (h : ls.filter (fun x => x.license == p) = []) :
    selectLicense (p :: ps) ls = selectLicense ps ls := by
  conv_lhs => rw [selectLicense]
  rw [h]

lemma selectLicense_cons_of_filter_cons (p : String) (ps : List String)
    (ls : List LicenseEntry) (e : LicenseEntry) (rest : List LicenseEntry)
    (h : ls.filter (fun x => x.license == p) = e :: rest) :
    selectLicense (p :: ps) ls = (e.license, e.text) := by
  conv_lhs => rw [selectLicense]
  rw [h]

lemma find?_of_filter_cons {α : Type} (pred : α → Bool) (ls : List α) (e : α)
    (rest : List α) (h : ls.filter pred = e :: rest) : ls.find? pred = some e := by
  induction ls generalizing rest with
  | nil => simp at h
  | cons a l ih =>
    cases ha : pred a with
    | true =>
      rw [List.filter_cons, if_pos ha] at h
      rw [List.find?_cons, ha]
      exact congrArg some (List.cons.inj h).1
    | false =>
      rw [List.filter_cons, if_neg (by simp [ha])] at h
      rw [List.find?_cons, ha]
      exact ih rest h

lemma selectLicense_of_find?_eq_none (P : List String) (ls : List LicenseEntry)
    (h : P.find? (fun q => ls.any (fun e => e.license == q)) = none) :
    selectLicense P ls = ("", "") := by
  induction P with
  | nil => rfl
  | cons q qs ih =>
    rw [List.find?_cons] at h
    cases hany : ls.any (fun e => e.license == q) with
    | true => rw [hany] at h; simp at h
    | false =>
      rw [hany] at h
      have hfil : ls.filter (fun x => x.license == q) = [] := by
        rw [List.filter_eq_nil_iff]
        intro a ha hla
        have : ls.any (fun e => e.license == q) = true :=
          List.any_eq_true.mpr ⟨a, ha, hla⟩
        rw [hany] at this
        exact Bool.false_ne_true this
      rw [selectLicense_cons_of_filter_nil q qs ls hfil]
      exact ih h

lemma selectLicense_of_find?_eq_some (P : List String) (ls : List LicenseEntry)
    (p : String) (h : P.find? (fun q => ls.any (fun e => e.license == q)) = some p) :
    ∃ e, ls.find? (fun x => x.license == p) = some e ∧ e.license = p ∧
      selectLicense P ls = (e.license, e.text) := by
  induction P with
  | nil => simp at h
  | cons q qs ih =>
    rw [List.find?_cons] at h
    cases hany : ls.any (fun e => e.license == q) with
    | false =>
      rw [hany] at h
      have hfil : ls.filter (fun x => x.license == q) = [] := by
        rw [List.filter_eq_nil_iff]
        intro a ha hla
        have : ls.any (fun e => e.license == q) = true :=
          List.any_eq_true.mpr ⟨a, ha, hla⟩
        rw [hany] at this
        exact Bool.false_ne_true this
      rw [selectLicense_cons_of_filter_nil q qs ls hfil]
      exact ih h
    | true =>
      rw [hany] at h
      rw [← Option.some.inj h]
      obtain ⟨e, rest, hfil⟩ :
          ∃ e rest, ls.filter (fun x => x.license == q) = e :: rest := by
        cases hf : ls.filter (fun x => x.license == q) with
        | nil =>
          obtain ⟨a, ha, hla⟩ := List.any_eq_true.mp hany
          exact absurd (List.filter_eq_nil_iff.mp hf a ha) (by simp [hla])
        | cons e rest => exact ⟨e, rest, rfl⟩
      have hmem : e ∈ ls.filter (fun x => x.license == q) := by rw [hfil]; simp
      have hlic : e.license = q := by
        have := List.of_mem_filter hmem
        simpa using this
      exact ⟨e, find?_of_filter_cons _ ls e rest hfil, hlic,
        selectLicense_cons_of_filter_cons q qs ls e rest hfil⟩

lemma selectLicense_fst_spec (P : List String) (ls : List LicenseEntry)
    (h : (selectLicense P ls).1 ≠ "") :
    (selectLicense P ls).1 ∈ P ∧
      ∃ e ∈ ls, e.license = (selectLicense P ls).1 ∧
        (selectLicense P ls).2 = e.text := by
  cases hf : P.find? (fun q => ls.any (fun e => e.license == q)) with
  | none =>
    rw [selectLicense_of_find?_eq_none P ls hf] at h
    exact absurd rfl h
  | some p =>
    obtain ⟨e, hfind, hlic, hsel⟩ := selectLicense_of_find?_eq_some P ls p hf
    rw [hsel]
    exact ⟨by rw [hlic] at hsel ⊢; exact List.mem_of_find?_eq_some hf,
      e, List.mem_of_find?_eq_some hfind, rfl, rfl⟩

lemma selectLicense_fst_eq_empty_of_no_match (P : List String)
    (ls : List LicenseEntry) (h : ∀ e ∈ ls, e.license ∉ P) :
    (selectLicense P ls).1 = "" := by
  have hf : P.find? (fun q => ls.any (fun e => e.license == q)) = none := by
    rw [List.find?_eq_none]
    intro q hq hany
    obtain ⟨e, he, hla⟩ := List.any_eq_true.mp hany
    exact h e he (by rw [eq_of_beq hla]; exact hq)
  rw [selectLicense_of_find?_eq_none P ls hf]

lemma processDeps_cons_no_licenses (P : List String) (d : Dep) (ds : List Dep)
    (acc : String) (h : d.licenses = []) :
    processDeps P (d :: ds) acc
      = .failure acc ("Error: " ++ d.package_name ++ " has no licenses") := by
  simp [processDeps, h]

lemma processDeps_cons_no_permissible (P : List String) (d : Dep) (ds : List Dep)
    (acc : String) (h1 : d.licenses ≠ []) (h2 : (selectLicense P d.licenses).1 = "") :
    processDeps P (d :: ds) acc
      = .failure acc ("Error: " ++ d.package_name ++ " has no permissible licenses") := by
  have hlen : (d.licenses.length == 0) = false := by
    simp [List.length_eq_zero, h1]
  simp [processDeps, hlen, h2]

lemma processDeps_cons_ok (P : List String) (d : Dep) (ds : List Dep)
    (acc : String) (h1 : d.licenses ≠ []) (h2 : (selectLicense P d.licenses).1 ≠ "") :
    processDeps P (d :: ds) acc = processDeps P ds (acc ++ renderDep P d) := by
  have hlen : (d.licenses.length == 0) = false := by
    simp [List.length_eq_zero, h1]
  have hsel : ((selectLicense P d.licenses).1 == "") = false := by
    simp [h2]
  simp [processDeps, hlen, hsel]

lemma processDeps_all_valid (P : List String) (deps : List Dep) :
    ∀ acc, (∀ d ∈ deps, validDep P d) →
      processDeps P deps acc = .success (acc ++ concatList (deps.map (renderDep P))) := by
  induction deps with
  | nil => intro acc h; simp [processDeps, concatList]
  | cons d ds ih =>
    intro acc h
    have hd := h d (by simp)
    rw [processDeps_cons_ok P d ds acc hd.1 hd.2,
      ih (acc ++ renderDep P d) (fun x hx => h x (by simp [hx]))]
    simp [concatList, String.append_assoc]

lemma processDeps_append_valid (P : List String) (pre : List Dep) :
    ∀ acc rest, (∀ x ∈ pre, validDep P x) →
      processDeps P (pre ++ rest) acc
        = processDeps P rest (acc ++ concatList (pre.map (renderDep P))) := by
  induction pre with
  | nil => intro acc rest h; simp [concatList]
  | cons d ds ih =>
    intro acc rest h
    have hd := h d (by simp)
    rw [List.cons_append, processDeps_cons_ok P d (ds ++ rest) acc hd.1 hd.2,
      ih (acc ++ renderDep P d) rest (fun x hx => h x (by simp [hx]))]
    simp [concatList, String.append_assoc]

lemma valid_of_processDeps_success (P : List String) (deps : List Dep) :
    ∀ acc c, processDeps P deps acc = .success c → ∀ d ∈ deps, validDep P d := by
  induction deps with
  | nil => intro acc c _ d hd; simp at hd
  | cons a ds ih =>
    intro acc c h d hd
    by_cases h1 : a.licenses = []
    · rw [processDeps_cons_no_licenses P a ds acc h1] at h
      simp at h
    · by_cases h2 : (selectLicense P a.licenses).1 = ""
      · rw [processDeps_cons_no_permissible P a ds acc h1 h2] at h
        simp at h
      · rw [processDeps_cons_ok P a ds acc h1 h2] at h
        rcases List.mem_cons.mp hd with rfl | hmem
        · exact ⟨h1, h2⟩
        · exact ih _ _ h d hmem

lemma processDeps_fails_of_invalid (P : List String) (deps : List Dep)
    (acc : String) (h : ∃ d ∈ deps, ¬ validDep P d) :
    ∃ c e, processDeps P deps acc = .failure c e := by
  cases hr : processDeps P deps acc with
  | success c =>
    obtain ⟨d, hd, hnv⟩ := h
    exact absurd (valid_of_processDeps_success P deps acc c hr d hd) hnv
  | failure c e => exact ⟨c, e, rfl⟩

lemma any_eq_of_perm (ls ls2 : List LicenseEntry) (hperm : ls.Perm ls2)
    (q : String) :
    ls.any (fun e => e.license == q) = ls2.any (fun e => e.license == q) := by
  cases h2 : ls2.any (fun e => e.license == q) with
  | true =>
    obtain ⟨e, he, hq⟩ := List.any_eq_true.mp h2
    exact List.any_eq_true.mpr ⟨e, hperm.mem_iff.mpr he, hq⟩
  | false =>
    cases h1 : ls.any (fun e => e.license == q) with
    | false => rfl
    | true =>
      obtain ⟨e, he, hq⟩ := List.any_eq_true.mp h1
      have : ls2.any (fun e => e.license == q) = true :=
        List.any_eq_true.mpr ⟨e, hperm.mem_iff.mp he, hq⟩
      rw [h2] at this
      exact absurd this (by simp)

/-- Concrete record used in examples: one MIT license (Scenario A of the spec). -/
def mitDep : Dep := ⟨"foo", [⟨"MIT", "MIT TEXT"⟩]⟩

/-- Concrete record with a single non-allow-listed license (Scenario C). -/
def gplDep : Dep := ⟨"baz", [⟨"GPL-3.0", "gpl text"⟩]⟩

/-- Concrete record with an empty license list (Scenario B). -/
def emptyDep : Dep := ⟨"bar", []⟩

/-- Concrete license list holding two distinct entries for the same identifier. -/
def dupLicenses : List LicenseEntry :=
  [⟨"GPL-3.0", "g"⟩, ⟨"MIT", "first text"⟩, ⟨"MIT", "second text"⟩]

/-- C1: whenever some entry of the dependency's license list carries an
allow-listed identifier, the selection loop returns the allow-listed
identifier of lowest allow-list index that occurs among the licenses (the
first hit of `List.find?` over the allow-list), and the result does not
depend on the order of the dependency's own license list. -/
theorem c1_allowlist_priority (P : List String) (ls ls2 : List LicenseEntry)
    (hperm : ls.Perm ls2) (hmatch : ∃ e ∈ ls, e.license ∈ P) :
    ∃ p, P.find? (fun q => ls.any (fun e => e.license == q)) = some p ∧
      (selectLicense P ls).1 = p ∧ (selectLicense P ls2).1 = p := by
  cases hf : P.find? (fun q => ls.any (fun e => e.license == q)) with
  | none =>
    obtain ⟨e0, he0, hp0⟩ := hmatch
    have := List.find?_eq_none.mp hf e0.license hp0
    exact absurd (List.any_eq_true.mpr ⟨e0, he0, by simp⟩) this
  | some p =>
    obtain ⟨e, _, hlic, hsel⟩ := selectLicense_of_find?_eq_some P ls p hf
    have hf2 : P.find? (fun q => ls2.any (fun e => e.license == q)) = some p := by
      have hfun : (fun q => ls.any (fun e => e.license == q))
          = (fun q => ls2.any (fun e => e.license == q)) :=
        funext (any_eq_of_perm ls ls2 hperm)
      rw [← hfun]
      exact hf
    obtain ⟨e2, _, hlic2, hsel2⟩ := selectLicense_of_find?_eq_some P ls2 p hf2
    exact ⟨p, rfl, by rw [hsel]; exact hlic, by rw [hsel2]; exact hlic2⟩

/-- C1 witness: allow-list `["Apache-2.0", "MIT"]`, licenses listing MIT first;
the selection still picks `Apache-2.0`, in either license order (Scenario D). -/
theorem c1_allowlist_priority_witness :
    ∃ p, ["Apache-2.0", "MIT"].find?
        (fun q => [LicenseEntry.mk "MIT" "m", LicenseEntry.mk "Apache-2.0" "a"].any
          (fun e => e.license == q)) = some p ∧
      (selectLicense ["Apache-2.0", "MIT"]
        [LicenseEntry.mk "MIT" "m", LicenseEntry.mk "Apache-2.0" "a"]).1 = p ∧
      (selectLicense ["Apache-2.0", "MIT"]
        [LicenseEntry.mk "Apache-2.0" "a", LicenseEntry.mk "MIT" "m"]).1 = p :=
  c1_allowlist_priority ["Apache-2.0", "MIT"]
    [LicenseEntry.mk "MIT" "m", LicenseEntry.mk "Apache-2.0" "a"]
    [LicenseEntry.mk "Apache-2.0" "a", LicenseEntry.mk "MIT" "m"]
    (by decide) (by decide)

/-- C10: when the selected allow-listed identifier `p` matches several entries
of the dependency's license list, the loop takes `l[0]` of the filtered list,
i.e. the entry at the lowest index in the dependency's own order, and that
entry supplies both the recorded identifier and the text; later duplicates are
ignored. -/
theorem c10_lowest_index_entry (P : List String) (ls : List LicenseEntry)
    (p : String)
    (hp : P.find? (fun q => ls.any (fun e => e.license == q)) = some p) :
    ∃ e, ls.find? (fun x => x.license == p) = some e ∧
      selectLicense P ls = (e.license, e.text) := by
  obtain ⟨e, h1, _, h2⟩ := selectLicense_of_find?_eq_some P ls p hp
  exact ⟨e, h1, h2⟩

/-- C10 witness: two MIT entries with different texts; the selection returns
the first one's text, and concretely equals `("MIT", "first text")`. -/
theorem c10_lowest_index_entry_witness :
    (∃ e, dupLicenses.find? (fun x => x.license == "MIT") = some e ∧
      selectLicense permissible_licenses dupLicenses = (e.license, e.text)) ∧
    selectLicense permissible_licenses dupLicenses = ("MIT", "first text") :=
  ⟨c10_lowest_index_entry permissible_licenses dupLicenses "MIT" (by decide),
    by decide⟩

/-- C5: if the enumeration subprocess exits non-zero or its stdout fails JSON
parsing, the raised exception aborts the interpreter with a non-zero status
before the output file is created and before any record is processed (no
diagnostic line, no file, no content). -/
theorem c5_external_failure_aborts (ext : ExternalOutcome)
    (h : ext = ExternalOutcome.toolFailed ∨ ext = ExternalOutcome.badJson) :
    (runProgram ext).fileCreated = false ∧ (runProgram ext).fileContent = "" ∧
      (runProgram ext).stderrLines = [] ∧ (runProgram ext).exitCode ≠ 0 := by
  rcases h with rfl | rfl <;> simp [runProgram]

/-- C5 witness: the subprocess-failure case concretely. -/
theorem c5_external_failure_aborts_witness :
    (runProgram ExternalOutcome.toolFailed).fileCreated = false ∧
      (runProgram ExternalOutcome.toolFailed).fileContent = "" ∧
      (runProgram ExternalOutcome.toolFailed).stderrLines = [] ∧
      (runProgram ExternalOutcome.toolFailed).exitCode ≠ 0 :=
  c5_external_failure_aborts ExternalOutcome.toolFailed (Or.inl rfl)

/-- C9: the script is deterministic: two runs on the same external-tool
outcome produce byte-identical file content, the same exit status and the
same diagnostics. -/
theorem c9_deterministic (e1 e2 : ExternalOutcome) (h : e1 = e2) :
    (runProgram e1).fileContent = (runProgram e2).fileContent ∧
      (runProgram e1).exitCode = (runProgram e2).exitCode ∧
      (runProgram e1).stderrLines = (runProgram e2).stderrLines := by
  rw [h]
  exact ⟨rfl, rfl, rfl⟩

/-- C9 witness: two runs on the one-MIT-dependency input agree on all three
observables. -/
theorem c9_deterministic_witness :
    (runProgram (.parsed [mitDep])).fileContent
        = (runProgram (.parsed [mitDep])).fileContent ∧
      (runProgram (.parsed [mitDep])).exitCode
        = (runProgram (.parsed [mitDep])).exitCode ∧
      (runProgram (.parsed [mitDep])).stderrLines
        = (runProgram (.parsed [mitDep])).stderrLines :=
  c9_deterministic (.parsed [mitDep]) (.parsed [mitDep]) rfl

/-- C7: on a run in which every record is accepted, the file content is
exactly the header followed by one block per record in input order — each
block being the subsection header with the package name, the chosen license
identifier and the license text, separated by blank lines — the diagnostic
stream is empty, and the exit status is 0. -/
theorem c7_success_report (deps : List Dep)
    (h : ∀ d ∈ deps, validDep permissible_licenses d) :
    runProgram (.parsed deps) =
      ⟨true,
        header ++ concatList (deps.map (fun d =>
          "## " ++ d.package_name ++ "\n\n"
            ++ (selectLicense permissible_licenses d.licenses).1 ++ "\n\n"
            ++ (selectLicense permissible_licenses d.licenses).2 ++ "\n\n\n")),
        [], 0⟩ := by
  show (match processDeps permissible_licenses deps header with
    | ProcResult.success c => RunState.mk true c [] 0
    | ProcResult.failure c e => RunState.mk true c [e] 1) = _
  rw [processDeps_all_valid permissible_licenses deps header h]
  rfl

/-- C7 witness: the one-MIT-dependency input (Scenario A) produces the header
plus a single `foo`/`MIT`/`MIT TEXT` block and exit status 0. -/
theorem c7_success_report_witness :
    (∀ d ∈ [mitDep], validDep permissible_licenses d) ∧
    runProgram (.parsed [mitDep]) =
      ⟨true,
        header ++ concatList ([mitDep].map (fun d =>
          "## " ++ d.package_name ++ "\n\n"
            ++ (selectLicense permissible_licenses d.licenses).1 ++ "\n\n"
            ++ (selectLicense permissible_licenses d.licenses).2 ++ "\n\n\n")),
        [], 0⟩ :=
  ⟨by decide, c7_success_report [mitDep] (by decide)⟩

/-- C2: every record of a completed report carries exactly one chosen license
and it is allow-listed: on exit status 0 the file is the header plus the
per-record blocks and every record's selected identifier lies in
`permissible_licenses`; and whenever some record has no allow-listed license
at all, the run instead ends with exit status 1. -/
theorem c2_report_invariant (deps : List Dep) :
    ((runProgram (.parsed deps)).exitCode = 0 →
      (runProgram (.parsed deps)).fileContent
        = header ++ concatList (deps.map (renderDep permissible_licenses)) ∧
      ∀ d ∈ deps,
        (selectLicense permissible_licenses d.licenses).1 ∈ permissible_licenses) ∧
    ((∃ d ∈ deps, ∀ e ∈ d.licenses, e.license ∉ permissible_licenses) →
      (runProgram (.parsed deps)).exitCode = 1) := by
  constructor
  · intro h0
    cases hp : processDeps permissible_licenses deps header with
    | failure c e => simp [runProgram, hp] at h0
    | success c =>
      have hvalid := valid_of_processDeps_success permissible_licenses deps header c hp
      have hc := processDeps_all_valid permissible_licenses deps header hvalid
      rw [hp] at hc
      constructor
      · simp [runProgram, hp]
        exact ProcResult.success.inj hc
      · intro d hd
        exact (selectLicense_fst_spec permissible_licenses d.licenses
          (hvalid d hd).2).1
  · rintro ⟨d, hd, hno⟩
    have hnv : ¬ validDep permissible_licenses d := by
      rintro ⟨_, hne⟩
      obtain ⟨hmem, e, he, hlic, _⟩ :=
        selectLicense_fst_spec permissible_licenses d.licenses hne
      exact hno e he (hlic ▸ hmem)
    obtain ⟨c, e, hfail⟩ :=
      processDeps_fails_of_invalid permissible_licenses deps header ⟨d, hd, hnv⟩
    simp [runProgram, hfail]

/-- C2 witness: the GPL-only record has no allow-listed license and the run
exits with status 1. -/
theorem c2_report_invariant_witness :
    (∃ d ∈ [gplDep], ∀ e ∈ d.licenses, e.license ∉ permissible_licenses) ∧
    (runProgram (.parsed [gplDep])).exitCode = 1 :=
  ⟨by decide, (c2_report_invariant [gplDep]).2 (by decide)⟩

/-- C8: on a successful run the report consists of one block per input record
and the sequence of package names appearing in the report blocks equals the
sequence of input package names, in the same order. -/
theorem c8_names_roundtrip (deps : List Dep)
    (h : (runProgram (.parsed deps)).exitCode = 0) :
    ∃ blocks : List (String × String × String),
      (runProgram (.parsed deps)).fileContent
        = header ++ concatList (blocks.map (fun b =>
            "## " ++ b.1 ++ "\n\n" ++ b.2.1 ++ "\n\n" ++ b.2.2 ++ "\n\n\n")) ∧
      blocks.map (fun b => b.1) = deps.map (fun d => d.package_name) := by
  cases hp : processDeps permissible_licenses deps header with
  | failure c e => simp [runProgram, hp] at h
  | success c =>
    have hvalid := valid_of_processDeps_success permissible_licenses deps header c hp
    have hc := processDeps_all_valid permissible_licenses deps header hvalid
    rw [hp] at hc
    refine ⟨deps.map (fun d => (d.package_name,
      (selectLicense permissible_licenses d.licenses).1,
      (selectLicense permissible_licenses d.licenses).2)), ?_, ?_⟩
    · simp only [runProgram, hp, List.map_map]
      exact ProcResult.success.inj hc
    · rw [List.map_map]
      rfl

/-- C8 witness: for the one-MIT-dependency input the report names are exactly
`["foo"]`. -/
theorem c8_names_roundtrip_witness :
    (runProgram (.parsed [mitDep])).exitCode = 0 ∧
    ∃ blocks : List (String × String × String),
      (runProgram (.parsed [mitDep])).fileContent
        = header ++ concatList (blocks.map (fun b =>
            "## " ++ b.1 ++ "\n\n" ++ b.2.1 ++ "\n\n" ++ b.2.2 ++ "\n\n\n")) ∧
      blocks.map (fun b => b.1) = [mitDep].map (fun d => d.package_name) :=
  ⟨by decide, c8_names_roundtrip [mitDep] (by decide)⟩

/-- C3 counterexample: on the input `[gplDep, emptyDep]` the second record has
an empty license list, yet the diagnostic `Error: bar has no licenses` is
never written: the run already aborts on the first record with
`Error: baz has no permissible licenses`, so the claim as stated (any record
with an empty license list yields its own diagnostic) is false. -/
theorem c3_empty_licenses_counterexample :
    (∃ d ∈ [gplDep, emptyDep], d.licenses = []) ∧
    "Error: bar has no licenses"
        ∉ (runProgram (.parsed [gplDep, emptyDep])).stderrLines ∧
    (runProgram (.parsed [gplDep, emptyDep])).stderrLines
        = ["Error: baz has no permissible licenses"] := by
  decide

/-- C3 (amended): if the first record at which validation fails has an empty
license list — i.e. every earlier record is accepted — then the run prints
exactly `Error: <package_name> has no licenses` to stderr, exits with status
1, and no later record is processed: the file holds only the header and the
blocks of the earlier records. -/
theorem c3_empty_licenses_first_failure (pre post : List Dep) (d : Dep)
    (hpre : ∀ x ∈ pre, validDep permissible_licenses x) (hd : d.licenses = []) :
    runProgram (.parsed (pre ++ d :: post)) =
      ⟨true, header ++ concatList (pre.map (renderDep permissible_licenses)),
        ["Error: " ++ d.package_name ++ " has no licenses"], 1⟩ := by
  have h1 := processDeps_append_valid permissible_licenses pre header (d :: post) hpre
  rw [processDeps_cons_no_licenses permissible_licenses d post _ hd] at h1
  show (match processDeps permissible_licenses (pre ++ d :: post) header with
    | ProcResult.success c => RunState.mk true c [] 0
    | ProcResult.failure c e => RunState.mk true c [e] 1) = _
  rw [h1]

/-- C3 amended witness: after the valid `foo`/MIT record, the empty-licensed
`bar` record aborts the run with that exact diagnostic; the trailing record is
never reached. -/
theorem c3_empty_licenses_first_failure_witness :
    (∀ x ∈ [mitDep], validDep permissible_licenses x) ∧
    emptyDep.licenses = [] ∧
    runProgram (.parsed ([mitDep] ++ emptyDep :: [gplDep])) =
      ⟨true, header ++ concatList ([mitDep].map (renderDep permissible_licenses)),
        ["Error: " ++ emptyDep.package_name ++ " has no licenses"], 1⟩ :=
  ⟨by decide, by decide,
    c3_empty_licenses_first_failure [mitDep] [gplDep] emptyDep (by decide) (by decide)⟩

/-- C4 counterexample: on the input `[emptyDep, gplDep]` the second record has
licenses but none allow-listed, yet `Error: baz has no permissible licenses`
is never written: the run already aborts on the first record with
`Error: bar has no licenses`, so the claim as stated (any record with no
allow-listed license yields its own diagnostic) is false. -/
theorem c4_no_permissible_counterexample :
    (∃ d ∈ [emptyDep, gplDep], d.licenses ≠ [] ∧
        ∀ e ∈ d.licenses, e.license ∉ permissible_licenses) ∧
    "Error: baz has no permissible licenses"
        ∉ (runProgram (.parsed [emptyDep, gplDep])).stderrLines ∧
    (runProgram (.parsed [emptyDep, gplDep])).stderrLines
        = ["Error: bar has no licenses"] := by
  decide

/-- C4 (amended): if the first record at which validation fails has a
non-empty license list none of whose identifiers is allow-listed — i.e. every
earlier record is accepted — then the run prints exactly
`Error: <package_name> has no permissible licenses` to stderr, exits with
status 1, and no later record is processed: the file holds only the header
and the blocks of the earlier records. -/
theorem c4_no_permissible_first_failure (pre post : List Dep) (d : Dep)
    (hpre : ∀ x ∈ pre, validDep permissible_licenses x) (hne : d.licenses ≠ [])
    (hno : ∀ e ∈ d.licenses, e.license ∉ permissible_licenses) :
    runProgram (.parsed (pre ++ d :: post)) =
      ⟨true, header ++ concatList (pre.map (renderDep permissible_licenses)),
        ["Error: " ++ d.package_name ++ " has no permissible licenses"], 1⟩ := by
  have hsel := selectLicense_fst_eq_empty_of_no_match permissible_licenses d.licenses hno
  have h1 := processDeps_append_valid permissible_licenses pre header (d :: post) hpre
  rw [processDeps_cons_no_permissible permissible_licenses d post _ hne hsel] at h1
  show (match processDeps permissible_licenses (pre ++ d :: post) header with
    | ProcResult.success c => RunState.mk true c [] 0
    | ProcResult.failure c e => RunState.mk true c [e] 1) = _
  rw [h1]

/-- C4 amended witness: after the valid `foo`/MIT record, the GPL-only `baz`
record aborts the run with that exact diagnostic; the trailing record is never
reached. -/
theorem c4_no_permissible_first_failure_witness :
    (∀ x ∈ [mitDep], validDep permissible_licenses x) ∧
    gplDep.licenses ≠ [] ∧
    (∀ e ∈ gplDep.licenses, e.license ∉ permissible_licenses) ∧
    runProgram (.parsed ([mitDep] ++ gplDep :: [emptyDep])) =
      ⟨true, header ++ concatList ([mitDep].map (renderDep permissible_licenses)),
        ["Error: " ++ gplDep.package_name ++ " has no permissible licenses"], 1⟩ :=
  ⟨by decide, by decide, by decide,
    c4_no_permissible_first_failure [mitDep] [emptyDep] gplDep
      (by decide) (by decide) (by decide)⟩

/-- C6: writing is interleaved with validation, so when validation fails at a
record all of whose predecessors were accepted, the output file has already
been created and holds exactly the header followed by the blocks of the
earlier records, and the run exits with status 1; with no earlier record the
file holds only the header. -/
theorem c6_interleaved_partial_write (pre post : List Dep) (d : Dep)
    (hpre : ∀ x ∈ pre, validDep permissible_licenses x)
    (hd : ¬ validDep permissible_licenses d) :
    (runProgram (.parsed (pre ++ d :: post))).fileCreated = true ∧
    (runProgram (.parsed (pre ++ d :: post))).fileContent
      = header ++ concatList (pre.map (renderDep permissible_licenses)) ∧
    (runProgram (.parsed (pre ++ d :: post))).exitCode = 1 := by
  have h1 := processDeps_append_valid permissible_licenses pre header (d :: post) hpre
  by_cases hemp : d.licenses = []
  · rw [processDeps_cons_no_licenses permissible_licenses d post _ hemp] at h1
    simp [runProgram, h1]
  · have hsel : (selectLicense permissible_licenses d.licenses).1 = "" := by
      by_contra hne
      exact hd ⟨hemp, hne⟩
    rw [processDeps_cons_no_permissible permissible_licenses d post _ hemp hsel] at h1
    simp [runProgram, h1]

/-- C6 witness: a failure on the very first record leaves a created file whose
content is exactly the header. -/
theorem c6_interleaved_partial_write_witness :
    ¬ validDep permissible_licenses emptyDep ∧
    ((runProgram (.parsed ([] ++ emptyDep :: []))).fileCreated = true ∧
     (runProgram (.parsed ([] ++ emptyDep :: []))).fileContent
       = header ++ concatList (([] : List Dep).map (renderDep permissible_licenses)) ∧
     (runProgram (.parsed ([] ++ emptyDep :: []))).exitCode = 1) :=
  ⟨by decide,
    c6_interleaved_partial_write [] [] emptyDep (by simp) (by decide)⟩
